import Mathlib

/-!
Verification of the Moments repository's core subsystems — the identity
normalizer, the deduplication/merge engine and the recurring-reminder
scheduler — against their natural-language specification.

The TypeScript sources are shallowly embedded as pure Lean functions over
explicit store values:

* `normalizePhone`, `normalizeEmail` embed `src/server/src/utils/normalize.ts`;
* `CalDate`/`getNextOccurrence` embed the date math of the celebrations
  route (`setFullYear` rewriting with JS Feb-29 normalization and full
  timestamp comparison);
* the `Store` record plus `getSuggestedDuplicates`, `mergePeople`,
  `scheduleCelebrationReminders` and `processDueReminders` embed
  `src/server/src/services/dedup.ts` and the notifications service, with
  the relational store's tables as lists of rows and its transaction
  primitive as an atomic (all-or-nothing) pure update.

Timestamps handled by the scheduler are modelled linearly (`DateTime`: a
day index plus a minute-of-day), which matches JS `setDate`/`setHours`
arithmetic in a fixed-offset, DST-free timezone; calendar dates handled by
`getNextOccurrence` are modelled as year/month/day/minute records, which
matches JS `setFullYear` including its Feb-29 → Mar-1 normalization.
-/

namespace Moments

/-! ## Normalizer (src/server/src/utils/normalize.ts) -/

/-- The digits kept by the JS replacement `phone.replace(/\D/g, '')`:
exactly the characters 0–9 are retained, everything else is dropped. -/
def digitsOf (s : String) : List Char :=
  s.toList.filter fun c => c.isDigit

/-- Embedding of `normalizePhone`.  The source first strips non-digits,
then branches on the digit count exactly as written here (the 11-digit
branch additionally tests `digits.startsWith('1')`). -/
def normalizePhone (phone : String) : String :=
  let digits := digitsOf phone
  if digits.length = 10 then
    "+1" ++ String.mk digits
  else if digits.length = 11 ∧ digits.head? = some '1' then
    "+" ++ String.mk digits
  else if digits.length > 10 then
    "+" ++ String.mk digits
  else
    "+" ++ String.mk digits

/-- Embedding of `normalizeEmail`: `email.toLowerCase().trim()`. -/
def normalizeEmail (email : String) : String :=
  email.toLower.trim

/-! ## Calendar dates and `getNextOccurrence` (celebrations route) -/

/-- A calendar timestamp as JS `Date` exposes it to the celebrations
route: year, month (1–12), day of month, and minute of day. -/
structure CalDate where
  year : Nat
  month : Nat
  day : Nat
  minute : Nat
deriving DecidableEq

/-- Gregorian leap-year test, as JS `Date` applies it when normalizing. -/
def isLeapYear (y : Nat) : Bool :=
  (y % 4 == 0) && (y % 100 != 0 || y % 400 == 0)

/-- JS `date.setFullYear(y)`: the year is replaced and the month/day kept,
except that Feb 29 in a non-leap target year normalizes to Mar 1. -/
def setFullYearD (y : Nat) (d : CalDate) : CalDate :=
  if d.month = 2 ∧ d.day = 29 ∧ isLeapYear y = false then
    { d with year := y, month := 3, day := 1 }
  else
    { d with year := y }

/-- JS `<` on `Date` values: comparison of the underlying instants, i.e.
lexicographic on (year, month, day, minute) for calendar timestamps. -/
def CalDate.ltD (a b : CalDate) : Bool :=
  decide (a.year < b.year ∨ (a.year = b.year ∧
    (a.month < b.month ∨ (a.month = b.month ∧
      (a.day < b.day ∨ (a.day = b.day ∧ a.minute < b.minute))))))

/-- Embedding of `getNextOccurrence` from the celebrations route: rewrite
the anchor's year to `fromDate`'s year; if the result is strictly before
`fromDate`, move it one further year ahead. -/
def getNextOccurrence (originalDate fromDate : CalDate) : CalDate :=
  let thisYear := fromDate.year
  let nextDate := setFullYearD thisYear originalDate
  if CalDate.ltD nextDate fromDate = true then
    setFullYearD (thisYear + 1) nextDate
  else
    nextDate

/-! ## Claim C7: next occurrence -/

/-- C7: for every anchor and fromDate (anchors on Feb 29 aside, where JS
year-rewriting additionally normalizes the day), `getNextOccurrence`
returns the anchor with its year rewritten to `fromDate`'s year, advanced
by exactly one further year when that rewritten date is strictly before
`fromDate`. -/
theorem getNextOccurrence_spec (a f : CalDate) (h : ¬(a.month = 2 ∧ a.day = 29)) :
    getNextOccurrence a f =
      if CalDate.ltD { a with year := f.year } f = true then
        { a with year := f.year + 1 }
      else
        { a with year := f.year } := by
  have hg : ∀ y : Nat, setFullYearD y a = { a with year := y } := by
    intro y
    unfold setFullYearD
    rw [if_neg]
    intro hc
    exact h ⟨hc.1, hc.2.1⟩
  have hg2 : ∀ y y' : Nat, setFullYearD y' { a with year := y } = { a with year := y' } := by
    intro y y'
    unfold setFullYearD
    rw [if_neg]
    intro hc
    exact h ⟨hc.1, hc.2.1⟩
  simp only [getNextOccurrence, hg, hg2]

/-- Witness for C7, which is also the claim's pair of concrete examples:
anchor 2020-03-15 with fromDate 2025-01-01 gives 2025-03-15, and with
fromDate 2025-04-01 gives 2026-03-15. -/
theorem getNextOccurrence_spec_witness :
    getNextOccurrence ⟨2020, 3, 15, 0⟩ ⟨2025, 1, 1, 0⟩ = ⟨2025, 3, 15, 0⟩ ∧
    getNextOccurrence ⟨2020, 3, 15, 0⟩ ⟨2025, 4, 1, 0⟩ = ⟨2026, 3, 15, 0⟩ := by
  constructor
  · rw [getNextOccurrence_spec ⟨2020, 3, 15, 0⟩ ⟨2025, 1, 1, 0⟩ (by decide)]
    decide
  · rw [getNextOccurrence_spec ⟨2020, 3, 15, 0⟩ ⟨2025, 4, 1, 0⟩ (by decide)]
    decide

/-! ## Claim C8: phone normalization -/

/-- C8: `normalizePhone` is total and branches exactly as specified: with
exactly 10 digits it returns `+`, the fixed country digit `1`, then the
ten digits; in every other case (11 digits leading with 1, more than 10
digits, or fewer than 10 digits) it returns `+` followed by the digits. -/
theorem normalizePhone_spec (s : String) :
    ((digitsOf s).length = 10 →
      normalizePhone s = "+1" ++ String.mk (digitsOf s)) ∧
    ((digitsOf s).length ≠ 10 →
      normalizePhone s = "+" ++ String.mk (digitsOf s)) := by
  constructor
  · intro h
    unfold normalizePhone
    rw [if_pos h]
  · intro h
    unfold normalizePhone
    rw [if_neg h]
    by_cases h11 : (digitsOf s).length = 11 ∧ (digitsOf s).head? = some '1'
    · rw [if_pos h11]
    · rw [if_neg h11]
      by_cases hgt : (digitsOf s).length > 10
      · rw [if_pos hgt]
      · rw [if_neg hgt]

/-- Witness for C8: a formatted 10-digit US number gains the `+1`
country code, and an 11-digit Dutch number is returned with `+` only. -/
theorem normalizePhone_spec_witness :
    normalizePhone "(555) 123-4567" = "+1" ++ String.mk (digitsOf "(555) 123-4567") ∧
    normalizePhone "31 6 1234 5678" = "+" ++ String.mk (digitsOf "31 6 1234 5678") :=
  ⟨(normalizePhone_spec "(555) 123-4567").1 (by decide),
   (normalizePhone_spec "31 6 1234 5678").2 (by decide)⟩

/-! ## The relational store

Rows of the Identity Store's tables, as the dedup engine and the reminder
scheduler touch them.  Fields irrelevant to every verified operation
(display names, notes, address text, …) are omitted; every field an
operation reads or writes is present. -/

/-- A scheduler timestamp: a day index plus a minute-of-day.  JS
`setDate(getDate() - n)` is `day := day - n` and `setHours(9,0,0,0)` is
`minute := 540` in this linear model. -/
structure DateTime where
  day : Int
  minute : Nat
deriving DecidableEq

/-- JS `<=` on `Date` values, lexicographic on (day, minute). -/
def DateTime.leD (a b : DateTime) : Bool :=
  decide (a.day < b.day ∨ (a.day = b.day ∧ a.minute ≤ b.minute))

structure Person where
  id : String
  userId : String
deriving DecidableEq

structure Identity where
  id : String
  personId : String
  normalizedPhone : Option String := none
  normalizedEmail : Option String := none
deriving DecidableEq

structure Address where
  id : String
  personId : String
deriving DecidableEq

inductive CelebrationType where
  | birthday
  | anniversary
  | lifeEvent
deriving DecidableEq

/-- A Celebration row (`ctype` embeds the source's `type` field, a Lean
keyword). -/
structure Celebration where
  id : String
  personId : String
  ctype : CelebrationType
  title : Option String := none
  date : DateTime
  recurringRule : Option String := none
  reminderOffsets : List Int := [7, 1, 0]
deriving DecidableEq

structure Event where
  id : String
  hostUserId : String
  title : String := ""
  datetime : DateTime
deriving DecidableEq

structure EventGuest where
  id : String
  eventId : String
  personId : Option String := none
deriving DecidableEq

structure User where
  id : String
  email : String := ""
  pushEnabled : Bool := false
  pushToken : Option String := none
  pushPlatform : Option String := none
deriving DecidableEq

structure ScheduledReminder where
  id : Nat
  userId : String
  celebrationId : Option String := none
  eventId : Option String := none
  scheduledFor : DateTime
  sent : Bool := false
  sentAt : Option DateTime := none
deriving DecidableEq

/-- The Identity Store: one list of rows per table, plus the id counter
the store uses for `createMany` on scheduled reminders. -/
structure Store where
  users : List User := []
  people : List Person := []
  identities : List Identity := []
  addresses : List Address := []
  celebrations : List Celebration := []
  events : List Event := []
  eventGuests : List EventGuest := []
  reminders : List ScheduledReminder := []
  nextRemId : Nat := 0
deriving DecidableEq

/-! ## Reminder scheduling (notifications service) -/

/-- Embedding of `scheduleCelebrationReminders`: delete every
ScheduledReminder row of this celebration, then create one row per
offset with `scheduledFor = date - offset days` pinned to 09:00. -/
def scheduleCelebrationReminders (userId celebrationId : String) (date : DateTime)
    (reminderOffsets : List Int) (s : Store) : Store :=
  let kept := s.reminders.filter fun r => decide (¬ r.celebrationId = some celebrationId)
  let created := reminderOffsets.enum.map fun p =>
    { id := s.nextRemId + p.1
      userId := userId
      celebrationId := some celebrationId
      scheduledFor := ⟨date.day - p.2, 540⟩ : ScheduledReminder }
  { s with reminders := kept ++ created, nextRemId := s.nextRemId + reminderOffsets.length }

/-- The reminder rows of one celebration, as the test-suite query
`reminders for that celebration` reads them. -/
def remindersFor (celebrationId : String) (s : Store) : List ScheduledReminder :=
  s.reminders.filter fun r => decide (r.celebrationId = some celebrationId)

lemma remindersFor_schedule (u cid : String) (date : DateTime) (offsets : List Int)
    (s : Store) :
    remindersFor cid (scheduleCelebrationReminders u cid date offsets s) =
      offsets.enum.map fun p =>
        { id := s.nextRemId + p.1
          userId := u
          celebrationId := some cid
          scheduledFor := ⟨date.day - p.2, 540⟩ : ScheduledReminder } := by
  simp only [remindersFor, scheduleCelebrationReminders, List.filter_append]
  rw [List.filter_comm]
  have h1 : ∀ rs : List ScheduledReminder,
      (rs.filter fun r => decide (r.celebrationId = some cid)).filter
        (fun r => decide (¬ r.celebrationId = some cid)) = [] := by
    intro rs
    induction rs with
    | nil => rfl
    | cons r rs ih =>
      by_cases h : r.celebrationId = some cid <;>
        simp [List.filter_cons, h, ih]
  rw [h1]
  have h2 : ∀ l : List (Nat × Int),
      (l.map fun p =>
        { id := s.nextRemId + p.1
          userId := u
          celebrationId := some cid
          scheduledFor := ⟨date.day - p.2, 540⟩ : ScheduledReminder }).filter
        (fun r => decide (r.celebrationId = some cid)) =
      l.map fun p =>
        { id := s.nextRemId + p.1
          userId := u
          celebrationId := some cid
          scheduledFor := ⟨date.day - p.2, 540⟩ : ScheduledReminder } := by
    intro l
    apply List.filter_eq_self.mpr
    intro r hr
    simp only [List.mem_map] at hr
    obtain ⟨p, _, rfl⟩ := hr
    simp
  rw [h2]
  simp

lemma schedule_preserves_other (u cid : String) (date : DateTime) (offsets : List Int)
    (s : Store) :
    (scheduleCelebrationReminders u cid date offsets s).reminders.filter
        (fun r => decide (¬ r.celebrationId = some cid)) =
      s.reminders.filter fun r => decide (¬ r.celebrationId = some cid) := by
  simp only [scheduleCelebrationReminders, List.filter_append]
  have h1 : (s.reminders.filter fun r => decide (¬ r.celebrationId = some cid)).filter
      (fun r => decide (¬ r.celebrationId = some cid)) =
      s.reminders.filter fun r => decide (¬ r.celebrationId = some cid) := by
    apply List.filter_eq_self.mpr
    intro r hr
    exact (List.mem_filter.mp hr).2
  have h2 : ∀ l : List (Nat × Int),
      (l.map fun p =>
        { id := s.nextRemId + p.1
          userId := u
          celebrationId := some cid
          scheduledFor := ⟨date.day - p.2, 540⟩ : ScheduledReminder }).filter
        (fun r => decide (¬ r.celebrationId = some cid)) = [] := by
    intro l
    induction l with
    | nil => rfl
    | cons p l ih =>
      rw [List.map_cons, List.filter_cons_of_neg (by simp), ih]
  rw [h1, h2]
  simp

/-! ## Claim C5: reminder regeneration -/

/-- C5: `scheduleCelebrationReminders` deletes every reminder row of the
celebration and creates exactly one row per offset, scheduled at
`date - offset` days, 09:00 (minute 540); rows of other celebrations are
untouched.  In particular, re-scheduling with offsets {3,0} after a prior
run with {7,1,0} leaves exactly 2 rows for the celebration, none of them
at D-7 or D-1. -/
theorem scheduleCelebrationReminders_spec (u cid : String) (date : DateTime)
    (offsets : List Int) (s : Store) :
    remindersFor cid (scheduleCelebrationReminders u cid date offsets s) =
      (offsets.enum.map fun p =>
        { id := s.nextRemId + p.1
          userId := u
          celebrationId := some cid
          scheduledFor := ⟨date.day - p.2, 540⟩ : ScheduledReminder }) ∧
    (scheduleCelebrationReminders u cid date offsets s).reminders.filter
        (fun r => decide (¬ r.celebrationId = some cid)) =
      s.reminders.filter (fun r => decide (¬ r.celebrationId = some cid)) ∧
    (remindersFor cid (scheduleCelebrationReminders u cid date [3, 0]
        (scheduleCelebrationReminders u cid date [7, 1, 0] s))).length = 2 ∧
    ∀ r ∈ remindersFor cid (scheduleCelebrationReminders u cid date [3, 0]
        (scheduleCelebrationReminders u cid date [7, 1, 0] s)),
      r.scheduledFor ≠ ⟨date.day - 7, 540⟩ ∧ r.scheduledFor ≠ ⟨date.day - 1, 540⟩ := by
  refine ⟨remindersFor_schedule u cid date offsets s,
    schedule_preserves_other u cid date offsets s, ?_, ?_⟩
  · rw [remindersFor_schedule]
    rfl
  · rw [remindersFor_schedule]
    intro r hr
    simp only [List.enum, List.enumFrom, List.map, List.mem_cons,
      List.not_mem_nil, or_false] at hr
    rcases hr with rfl | rfl <;>
      refine ⟨fun h => ?_, fun h => ?_⟩ <;>
        (simp only [ScheduledReminder.mk.injEq, DateTime.mk.injEq] at h; omega)

/-- Witness for C5: on an empty store, scheduling {7,1,0} then {3,0} for
celebration `c` against day 100 leaves rows on days 97 and 100 only, and
the first remaining row sits at neither D-7 (day 93) nor D-1 (day 99). -/
theorem scheduleCelebrationReminders_spec_witness :
    ((⟨3, "u", some "c", none, ⟨97, 540⟩, false, none⟩ : ScheduledReminder).scheduledFor ≠
        (⟨93, 540⟩ : DateTime)) ∧
    ((⟨3, "u", some "c", none, ⟨97, 540⟩, false, none⟩ : ScheduledReminder).scheduledFor ≠
        (⟨99, 540⟩ : DateTime)) :=
  (scheduleCelebrationReminders_spec "u" "c" ⟨100, 0⟩ [7, 1, 0] {}).2.2.2
    ⟨3, "u", some "c", none, ⟨97, 540⟩, false, none⟩ (by decide)

/-! ## Duplicate suggestions (dedup service) -/

/-- A person row together with its identities, as the dedup queries load
them (`include: { identities: true }`). -/
structure PersonW where
  person : Person
  identities : List Identity
deriving DecidableEq

inductive MatchType where
  | phone
  | email
deriving DecidableEq

structure DuplicateSuggestion where
  person1 : PersonW
  person2 : PersonW
  matchType : MatchType
  matchValue : String
deriving DecidableEq

/-- One step of building a JS `Map<string, Person[]>`: `get(k) || []`,
`push(p)`, `set(k, ...)`.  A `Map` keeps keys in insertion order and
`set` on an existing key keeps its position, so the model is an
association list where a fresh key is appended at the end. -/
def mapUpsert (m : List (String × List PersonW)) (k : String) (p : PersonW) :
    List (String × List PersonW) :=
  match m with
  | [] => [(k, [p])]
  | (k', ps) :: rest =>
    if k' = k then (k', ps ++ [p]) :: rest else (k', ps) :: mapUpsert rest k p

/-- The body of the map-building loop for one identity: the JS source
guards each slot with truthiness (`if (identity.normalizedPhone)`), so a
missing or empty string is skipped. -/
def addIdentityToMaps (p : PersonW) (i : Identity)
    (maps : List (String × List PersonW) × List (String × List PersonW)) :
    List (String × List PersonW) × List (String × List PersonW) :=
  let maps1 :=
    match i.normalizedPhone with
    | some ph => if ph = "" then maps else (mapUpsert maps.1 ph p, maps.2)
    | none => maps
  match i.normalizedEmail with
  | some em => if em = "" then maps1 else (maps1.1, mapUpsert maps1.2 em p)
  | none => maps1

/-- The two nested loops that fill `phoneMap` and `emailMap`. -/
def buildMaps (people : List PersonW) :
    List (String × List PersonW) × List (String × List PersonW) :=
  people.foldl
    (fun maps p => p.identities.foldl (fun m i => addIdentityToMaps p i m) maps)
    ([], [])

/-- All index pairs (i, j) with i < j of a list, in the order of the
source's nested `for` loops. -/
def pairsOf : List PersonW → List (PersonW × PersonW)
  | [] => []
  | x :: xs => (xs.map fun y => (x, y)) ++ pairsOf xs

/-- Lexicographic string comparison by character codes, as the default JS
`Array.sort` comparator orders two strings. -/
def charsLeD : List Char → List Char → Bool
  | [], _ => true
  | _ :: _, [] => false
  | c :: cs, d :: ds =>
    if c.toNat < d.toNat then true
    else if d.toNat < c.toNat then false
    else charsLeD cs ds

/-- The canonical pair key `[id1, id2].sort().join('-')`. -/
def pairKey (a b : String) : String :=
  if charsLeD a.toList b.toList = true then a ++ "-" ++ b else b ++ "-" ++ a

/-- The pair key of an emitted suggestion. -/
def keyOf (g : DuplicateSuggestion) : String :=
  pairKey g.person1.person.id g.person2.person.id

/-- The inner pair loop of one map entry: skip a pair whose key is in
`seenPairs`, otherwise record the key and append the suggestion. -/
def processPairs (mt : MatchType) (mv : String) :
    List (PersonW × PersonW) → List String → List DuplicateSuggestion →
    List String × List DuplicateSuggestion
  | [], seen, acc => (seen, acc)
  | (p, q) :: rest, seen, acc =>
    let k := pairKey p.person.id q.person.id
    if k ∈ seen then
      processPairs mt mv rest seen acc
    else
      processPairs mt mv rest (k :: seen) (acc ++ [⟨p, q, mt, mv⟩])

/-- The outer loop over one map's entries (`if matchingPeople.length >= 2`
guards the pair loops). -/
def processEntries (mt : MatchType) :
    List (String × List PersonW) → List String → List DuplicateSuggestion →
    List String × List DuplicateSuggestion
  | [], seen, acc => (seen, acc)
  | (v, ps) :: rest, seen, acc =>
    if 2 ≤ ps.length then
      let r := processPairs mt v (pairsOf ps) seen acc
      processEntries mt rest r.1 r.2
    else
      processEntries mt rest seen acc

/-- Embedding of `getSuggestedDuplicates`: load the user's people with
their identities, build the phone and email maps, then run the phone
loop and the email loop.  The single `seenPairs` set is threaded through
BOTH loops, exactly as in the source. -/
def getSuggestedDuplicates (userId : String) (s : Store) : List DuplicateSuggestion :=
  let people := (s.people.filter fun p => decide (p.userId = userId)).map fun p =>
    (⟨p, s.identities.filter fun i => decide (i.personId = p.id)⟩ : PersonW)
  let maps := buildMaps people
  let r1 := processEntries MatchType.phone maps.1 [] []
  let r2 := processEntries MatchType.email maps.2 r1.1 r1.2
  r2.2

lemma charsLeD_total (xs ys : List Char) :
    charsLeD xs ys = true ∨ charsLeD ys xs = true := by
  induction xs generalizing ys with
  | nil => exact Or.inl rfl
  | cons c cs ih =>
    cases ys with
    | nil => exact Or.inr rfl
    | cons d ds =>
      simp only [charsLeD]
      by_cases h1 : c.toNat < d.toNat
      · left
        rw [if_pos h1]
      · by_cases h2 : d.toNat < c.toNat
        · right
          rw [if_pos h2]
        · rw [if_neg h1, if_neg h2, if_neg h2, if_neg h1]
          exact ih ds

lemma charsLeD_antisymm (xs ys : List Char) (h1 : charsLeD xs ys = true)
    (h2 : charsLeD ys xs = true) : xs = ys := by
  induction xs generalizing ys with
  | nil =>
    cases ys with
    | nil => rfl
    | cons d ds => simp [charsLeD] at h2
  | cons c cs ih =>
    cases ys with
    | nil => simp [charsLeD] at h1
    | cons d ds =>
      simp only [charsLeD] at h1 h2
      by_cases hc : c.toNat < d.toNat
      · have hnd : ¬ d.toNat < c.toNat := by omega
        rw [if_neg hnd, if_pos hc] at h2
        exact absurd h2 (by simp)
      · by_cases hd : d.toNat < c.toNat
        · rw [if_neg hc, if_pos hd] at h1
          exact absurd h1 (by simp)
        · rw [if_neg hc, if_neg hd] at h1
          rw [if_neg hd, if_neg hc] at h2
          have hn : c.toNat = d.toNat := by omega
          have hcd : c = d := Char.ext (UInt32.ext hn)
          rw [hcd, ih ds h1 h2]

lemma pairKey_comm (a b : String) : pairKey a b = pairKey b a := by
  unfold pairKey
  rcases charsLeD_total a.toList b.toList with h | h
  · rw [if_pos h]
    by_cases h2 : charsLeD b.toList a.toList = true
    · rw [if_pos h2]
      have hab : a = b := by
        have hl := charsLeD_antisymm _ _ h h2
        cases a
        cases b
        exact congrArg String.mk hl
      rw [hab]
    · rw [if_neg h2]
  · rw [if_pos h]
    by_cases h2 : charsLeD a.toList b.toList = true
    · rw [if_pos h2]
      have hab : a = b := by
        have hl := charsLeD_antisymm _ _ h2 h
        cases a
        cases b
        exact congrArg String.mk hl
      rw [hab]
    · rw [if_neg h2]

/-- Invariant of the pair loop: if the accumulated suggestions carry
pairwise-distinct keys all recorded in `seenPairs`, the same holds after
the loop, and `seenPairs` only grows. -/
lemma processPairs_inv (mt : MatchType) (mv : String) (prs : List (PersonW × PersonW))
    (seen : List String) (acc : List DuplicateSuggestion)
    (hnd : (acc.map keyOf).Nodup) (hsub : ∀ g ∈ acc, keyOf g ∈ seen) :
    ((processPairs mt mv prs seen acc).2.map keyOf).Nodup ∧
    (∀ g ∈ (processPairs mt mv prs seen acc).2,
      keyOf g ∈ (processPairs mt mv prs seen acc).1) ∧
    (∀ k ∈ seen, k ∈ (processPairs mt mv prs seen acc).1) := by
  induction prs generalizing seen acc with
  | nil =>
    exact ⟨hnd, hsub, fun k hk => hk⟩
  | cons pq rest ih =>
    obtain ⟨p, q⟩ := pq
    simp only [processPairs]
    by_cases hk : pairKey p.person.id q.person.id ∈ seen
    · rw [if_pos hk]
      exact ih seen acc hnd hsub
    · rw [if_neg hk]
      have hnd' : ((acc ++ [(⟨p, q, mt, mv⟩ : DuplicateSuggestion)]).map keyOf).Nodup := by
        rw [List.map_append, List.nodup_append]
        refine ⟨hnd, List.nodup_singleton _, ?_⟩
        intro a ha hb
        simp only [List.map_cons, List.map_nil, List.mem_singleton] at hb
        obtain ⟨g, hg, hga⟩ := List.mem_map.mp ha
        apply hk
        have : keyOf g ∈ seen := hsub g hg
        rw [hga, hb] at this
        exact this
      have hsub' : ∀ g ∈ acc ++ [(⟨p, q, mt, mv⟩ : DuplicateSuggestion)],
          keyOf g ∈ pairKey p.person.id q.person.id :: seen := by
        intro g hg
        rcases List.mem_append.mp hg with h | h
        · exact List.mem_cons_of_mem _ (hsub g h)
        · rw [List.mem_singleton] at h
          subst h
          exact List.mem_cons_self _ _
      obtain ⟨a1, a2, a3⟩ := ih _ _ hnd' hsub'
      exact ⟨a1, a2, fun k hks => a3 k (List.mem_cons_of_mem _ hks)⟩

/-- The same invariant lifted over a whole map's entries. -/
lemma processEntries_inv (mt : MatchType) (entries : List (String × List PersonW))
    (seen : List String) (acc : List DuplicateSuggestion)
    (hnd : (acc.map keyOf).Nodup) (hsub : ∀ g ∈ acc, keyOf g ∈ seen) :
    ((processEntries mt entries seen acc).2.map keyOf).Nodup ∧
    ∀ g ∈ (processEntries mt entries seen acc).2,
      keyOf g ∈ (processEntries mt entries seen acc).1 := by
  induction entries generalizing seen acc with
  | nil => exact ⟨hnd, hsub⟩
  | cons e rest ih =>
    obtain ⟨v, ps⟩ := e
    simp only [processEntries]
    by_cases hlen : 2 ≤ ps.length
    · rw [if_pos hlen]
      obtain ⟨a1, a2, _⟩ := processPairs_inv mt v (pairsOf ps) seen acc hnd hsub
      exact ih _ _ a1 a2
    · rw [if_neg hlen]
      exact ih _ _ hnd hsub

lemma twoPass_keys_nodup (m1 m2 : List (String × List PersonW)) :
    ((processEntries MatchType.email m2
        (processEntries MatchType.phone m1 [] []).1
        (processEntries MatchType.phone m1 [] []).2).2.map keyOf).Nodup := by
  obtain ⟨a1, a2⟩ :=
    processEntries_inv MatchType.phone m1 [] [] (by simp) (by simp)
  exact (processEntries_inv MatchType.email m2 _ _ a1 a2).1

lemma getSuggestedDuplicates_keys_nodup (u : String) (s : Store) :
    ((getSuggestedDuplicates u s).map keyOf).Nodup :=
  twoPass_keys_nodup _ _

/-! ## Claims C2 and C10: duplicate suggestions -/

/-- Two persons of user `u` sharing both a normalized phone and a
normalized email. -/
def storeBothMatch : Store :=
  { people := [⟨"p", "u"⟩, ⟨"q", "u"⟩]
    identities := [⟨"i1", "p", some "+15550000001", some "pat@example.com"⟩,
                   ⟨"i2", "q", some "+15550000001", some "pat@example.com"⟩] }

/-- C2 counterexample: in `storeBothMatch` the two distinct persons `p`
and `q` share both a normalized phone and a normalized email, yet
`getSuggestedDuplicates` returns the unordered pair exactly once — with
matchType phone — and no email-typed suggestion at all, because the
single `seenPairs` set is shared between the phone pass and the email
pass. -/
theorem getSuggestedDuplicates_both_match_counterexample :
    getSuggestedDuplicates "u" storeBothMatch =
      [⟨⟨⟨"p", "u"⟩, [⟨"i1", "p", some "+15550000001", some "pat@example.com"⟩]⟩,
        ⟨⟨"q", "u"⟩, [⟨"i2", "q", some "+15550000001", some "pat@example.com"⟩]⟩,
        MatchType.phone, "+15550000001"⟩] ∧
    ((getSuggestedDuplicates "u" storeBothMatch).filter fun g =>
      decide (g.matchType = MatchType.email)).length = 0 := by
  constructor <;> decide

/-- C2 amended: no unordered pair of person ids ever appears twice in the
output of `getSuggestedDuplicates` — across match types as well as within
one — and a pair matching on both phone and email therefore yields
exactly one suggestion, emitted with matchType phone by the
first-running phone pass. -/
theorem getSuggestedDuplicates_no_repeated_pair (u : String) (s : Store) :
    (getSuggestedDuplicates u s).Pairwise (fun g1 g2 =>
      ¬((g1.person1.person.id = g2.person1.person.id ∧
         g1.person2.person.id = g2.person2.person.id) ∨
        (g1.person1.person.id = g2.person2.person.id ∧
         g1.person2.person.id = g2.person1.person.id))) ∧
    (getSuggestedDuplicates "u" storeBothMatch).map DuplicateSuggestion.matchType =
      [MatchType.phone] := by
  constructor
  · have hnd := getSuggestedDuplicates_keys_nodup u s
    rw [List.Nodup, List.pairwise_map] at hnd
    refine hnd.imp ?_
    intro g1 g2 hne hsame
    apply hne
    rcases hsame with ⟨h1, h2⟩ | ⟨h1, h2⟩
    · unfold keyOf
      rw [h1, h2]
    · unfold keyOf
      rw [h1, h2, pairKey_comm]
  · decide

/-- One person of user `u` owning two identities with the same
normalized phone. -/
def storeSelfDup : Store :=
  { people := [⟨"p", "u"⟩]
    identities := [⟨"i1", "p", some "+15550000001", none⟩,
                   ⟨"i2", "p", some "+15550000001", none⟩] }

/-- C10: a single person owning two identities with the same normalized
phone is suggested as a duplicate of itself: `person1` and `person2` of
the returned suggestion are the same person, so a suggestion does not
guarantee two distinct persons. -/
theorem getSuggestedDuplicates_self_pair :
    getSuggestedDuplicates "u" storeSelfDup =
      [⟨⟨⟨"p", "u"⟩, [⟨"i1", "p", some "+15550000001", none⟩,
                     ⟨"i2", "p", some "+15550000001", none⟩]⟩,
        ⟨⟨"p", "u"⟩, [⟨"i1", "p", some "+15550000001", none⟩,
                     ⟨"i2", "p", some "+15550000001", none⟩]⟩,
        MatchType.phone, "+15550000001"⟩] ∧
    ((getSuggestedDuplicates "u" storeSelfDup).map fun g =>
      (g.person1.person.id, g.person2.person.id)) = [("p", "p")] := by
  constructor <;> decide

/-! ## Merging people (dedup service) -/

/-- Modelled from the spec: the Prisma schema (the referential actions of
`person.delete`) is not under src/.  Per the spec's data model, deleting a
Person cascades to its owned Identities, Addresses and Celebrations,
while EventGuest references to it are nulled, not deleted. -/
def deletePersonCascade (pid : String) (s : Store) : Store :=
  { s with
    people := s.people.filter fun p => decide (¬ p.id = pid)
    identities := s.identities.filter fun i => decide (¬ i.personId = pid)
    addresses := s.addresses.filter fun a => decide (¬ a.personId = pid)
    celebrations := s.celebrations.filter fun c => decide (¬ c.personId = pid)
    eventGuests := s.eventGuests.map fun g =>
      if g.personId = some pid then { g with personId := none } else g }

/-- The `prisma.$transaction` body of `mergePeople`: the four
`updateMany` re-points of identities, addresses, celebrations and event
guest records from the donor to the survivor, followed by the donor's
`person.delete`.  The store's transaction primitive makes these visible
atomically, so the body is one pure store update. -/
def mergeTransaction (person1Id person2Id : String) (s : Store) : Store :=
  let s1 := { s with
    identities := s.identities.map fun i =>
      if i.personId = person2Id then { i with personId := person1Id } else i
    addresses := s.addresses.map fun a =>
      if a.personId = person2Id then { a with personId := person1Id } else a
    celebrations := s.celebrations.map fun c =>
      if c.personId = person2Id then { c with personId := person1Id } else c
    eventGuests := s.eventGuests.map fun g =>
      if g.personId = some person2Id then { g with personId := some person1Id } else g }
  deletePersonCascade person2Id s1

inductive MergeError where
  | peopleNotFound
  | transactionAborted
  | survivorNotFound
deriving DecidableEq

/-- The survivor as `mergePeople` returns it:
`findUniqueOrThrow(..., include: { identities, addresses, celebrations })`. -/
structure PersonView where
  person : Person
  identities : List Identity
  addresses : List Address
  celebrations : List Celebration
deriving DecidableEq

def findUniquePersonView (pid : String) (s : Store) : Option PersonView :=
  match s.people.find? fun p => decide (p.id = pid) with
  | some p => some
      ⟨p,
       s.identities.filter fun i => decide (i.personId = pid),
       s.addresses.filter fun a => decide (a.personId = pid),
       s.celebrations.filter fun c => decide (c.personId = pid)⟩
  | none => none

/-- Embedding of `mergePeople`.  `txCommits` models the store's
transaction primitive: on commit all five statements apply at once, on
abort none applies and the store-level failure propagates (the source
never catches it).  The two ownership pre-checks run before the
transaction, the `findUniqueOrThrow` of the survivor after it. -/
def mergePeople (txCommits : Bool) (userId person1Id person2Id : String) (s : Store) :
    Store × Except MergeError PersonView :=
  let person1 := s.people.find? fun p => decide (p.id = person1Id ∧ p.userId = userId)
  let person2 := s.people.find? fun p => decide (p.id = person2Id ∧ p.userId = userId)
  if person1.isNone ∨ person2.isNone then
    (s, Except.error MergeError.peopleNotFound)
  else if txCommits = false then
    (s, Except.error MergeError.transactionAborted)
  else
    let s2 := mergeTransaction person1Id person2Id s
    match findUniquePersonView person1Id s2 with
    | some v => (s2, Except.ok v)
    | none => (s2, Except.error MergeError.survivorNotFound)

lemma find_by_id_of_nodup (l : List Person) (pid : String) (pA : Person)
    (hnd : (l.map Person.id).Nodup) (hmem : pA ∈ l) (hid : pA.id = pid) :
    l.find? (fun p => decide (p.id = pid)) = some pA := by
  induction l with
  | nil => cases hmem
  | cons p rest ih =>
    by_cases h : p.id = pid
    · rw [List.find?_cons_of_pos _ (by simpa using h)]
      rcases List.mem_cons.mp hmem with rfl | hmem'
      · rfl
      · exfalso
        have hin : p.id ∈ rest.map Person.id := by
          rw [h, ← hid]
          exact List.mem_map_of_mem Person.id hmem'
        exact (List.nodup_cons.mp hnd).1 hin
    · rw [List.find?_cons_of_neg _ (by simpa using h)]
      rcases List.mem_cons.mp hmem with rfl | hmem'
      · exact absurd hid h
      · exact ih (List.nodup_cons.mp hnd).2 hmem'

lemma repoint_filter_identities (p1 p2 : String) (hne : ¬ p1 = p2) (l : List Identity) :
    ((l.map fun i => if i.personId = p2 then { i with personId := p1 } else i).filter
      fun i => decide (¬ i.personId = p2)) =
    l.map fun i => if i.personId = p2 then { i with personId := p1 } else i := by
  apply List.filter_eq_self.mpr
  intro i hi
  obtain ⟨j, _, rfl⟩ := List.mem_map.mp hi
  by_cases h : j.personId = p2
  · rw [if_pos h]
    simpa using hne
  · rw [if_neg h]
    simpa using h

lemma repoint_filter_addresses (p1 p2 : String) (hne : ¬ p1 = p2) (l : List Address) :
    ((l.map fun a => if a.personId = p2 then { a with personId := p1 } else a).filter
      fun a => decide (¬ a.personId = p2)) =
    l.map fun a => if a.personId = p2 then { a with personId := p1 } else a := by
  apply List.filter_eq_self.mpr
  intro a ha
  obtain ⟨j, _, rfl⟩ := List.mem_map.mp ha
  by_cases h : j.personId = p2
  · rw [if_pos h]
    simpa using hne
  · rw [if_neg h]
    simpa using h

lemma repoint_filter_celebrations (p1 p2 : String) (hne : ¬ p1 = p2) (l : List Celebration) :
    ((l.map fun c => if c.personId = p2 then { c with personId := p1 } else c).filter
      fun c => decide (¬ c.personId = p2)) =
    l.map fun c => if c.personId = p2 then { c with personId := p1 } else c := by
  apply List.filter_eq_self.mpr
  intro c hc
  obtain ⟨j, _, rfl⟩ := List.mem_map.mp hc
  by_cases h : j.personId = p2
  · rw [if_pos h]
    simpa using hne
  · rw [if_neg h]
    simpa using h

lemma repoint_nullify_guests (p1 p2 : String) (hne : ¬ p1 = p2) (l : List EventGuest) :
    ((l.map fun g => if g.personId = some p2 then { g with personId := some p1 } else g).map
      fun g => if g.personId = some p2 then { g with personId := none } else g) =
    l.map fun g => if g.personId = some p2 then { g with personId := some p1 } else g := by
  rw [List.map_map]
  apply List.map_congr_left
  intro g _
  simp only [Function.comp_apply]
  by_cases h : g.personId = some p2
  · rw [if_pos h, if_neg]
    intro hc
    exact hne (Option.some.inj hc)
  · rw [if_neg h, if_neg h]

/-- For distinct survivor and donor ids, the merge transaction re-points
all four dependent tables and deletes exactly the donor: nothing else in
the store changes, and the delete's cascade is empty because the
re-points ran first inside the same transaction. -/
lemma mergeTransaction_eq (p1 p2 : String) (hne : ¬ p1 = p2) (s : Store) :
    mergeTransaction p1 p2 s =
      { s with
        people := s.people.filter fun p => decide (¬ p.id = p2)
        identities := s.identities.map fun i =>
          if i.personId = p2 then { i with personId := p1 } else i
        addresses := s.addresses.map fun a =>
          if a.personId = p2 then { a with personId := p1 } else a
        celebrations := s.celebrations.map fun c =>
          if c.personId = p2 then { c with personId := p1 } else c
        eventGuests := s.eventGuests.map fun g =>
          if g.personId = some p2 then { g with personId := some p1 } else g } := by
  unfold mergeTransaction deletePersonCascade
  simp only [Store.mk.injEq, true_and, and_true, eq_self_iff_true]
  exact ⟨repoint_filter_identities p1 p2 hne s.identities,
    repoint_filter_addresses p1 p2 hne s.addresses,
    repoint_filter_celebrations p1 p2 hne s.celebrations,
    repoint_nullify_guests p1 p2 hne s.eventGuests⟩

lemma findUniquePersonView_eq (pid : String) (s : Store) (pA : Person)
    (h : s.people.find? (fun p => decide (p.id = pid)) = some pA) :
    findUniquePersonView pid s =
      some ⟨pA,
        s.identities.filter fun i => decide (i.personId = pid),
        s.addresses.filter fun a => decide (a.personId = pid),
        s.celebrations.filter fun c => decide (c.personId = pid)⟩ := by
  unfold findUniquePersonView
  rw [h]

/-! ## Claim C1: merge correctness and atomicity -/

/-- C1: for two distinct persons owned by the requesting user, a
committed `mergePeople` re-points every Identity, Address, Celebration
and EventGuest reference of the donor to the survivor, deletes exactly
the donor's Person row, leaves every other table and row untouched, and
returns the survivor with its expanded collections; and the operation is
all-or-nothing — when the enclosing transaction aborts, the store is
returned exactly as it was before the call. -/
theorem mergePeople_spec (u p1 p2 : String) (s : Store) (pA pB : Person)
    (hnd : (s.people.map Person.id).Nodup)
    (hne : ¬ p1 = p2)
    (h1 : s.people.find? (fun p => decide (p.id = p1 ∧ p.userId = u)) = some pA)
    (h2 : s.people.find? (fun p => decide (p.id = p2 ∧ p.userId = u)) = some pB) :
    mergePeople true u p1 p2 s =
      ({ s with
         people := s.people.filter fun p => decide (¬ p.id = p2)
         identities := s.identities.map fun i =>
           if i.personId = p2 then { i with personId := p1 } else i
         addresses := s.addresses.map fun a =>
           if a.personId = p2 then { a with personId := p1 } else a
         celebrations := s.celebrations.map fun c =>
           if c.personId = p2 then { c with personId := p1 } else c
         eventGuests := s.eventGuests.map fun g =>
           if g.personId = some p2 then { g with personId := some p1 } else g },
       Except.ok
         ⟨pA,
          (s.identities.map fun i =>
            if i.personId = p2 then { i with personId := p1 } else i).filter
            fun i => decide (i.personId = p1),
          (s.addresses.map fun a =>
            if a.personId = p2 then { a with personId := p1 } else a).filter
            fun a => decide (a.personId = p1),
          (s.celebrations.map fun c =>
            if c.personId = p2 then { c with personId := p1 } else c).filter
            fun c => decide (c.personId = p1)⟩) ∧
    mergePeople false u p1 p2 s = (s, Except.error MergeError.transactionAborted) := by
  have hA : pA.id = p1 ∧ pA.userId = u := by
    have := List.find?_some h1
    simpa using this
  obtain ⟨hA1, hA2⟩ := hA
  have hmemA : pA ∈ s.people := List.mem_of_find?_eq_some h1
  have hTx := mergeTransaction_eq p1 p2 hne s
  have hnd' : ((s.people.filter fun p => decide (¬ p.id = p2)).map Person.id).Nodup :=
    List.Nodup.sublist (List.Sublist.map Person.id (List.filter_sublist s.people)) hnd
  have hmem' : pA ∈ s.people.filter fun p => decide (¬ p.id = p2) := by
    refine List.mem_filter.mpr ⟨hmemA, ?_⟩
    simp only [decide_eq_true_eq]
    rw [hA1]
    exact hne
  have hfound := find_by_id_of_nodup _ p1 pA hnd' hmem' hA1
  have hfind2 : (mergeTransaction p1 p2 s).people.find?
      (fun p => decide (p.id = p1)) = some pA := by
    rw [hTx]
    exact hfound
  have hview := findUniquePersonView_eq p1 (mergeTransaction p1 p2 s) pA hfind2
  constructor
  · simp only [mergePeople, h1, h2]
    rw [if_neg (by simp)]
    rw [if_neg (by simp)]
    rw [hview, hTx]
  · simp only [mergePeople, h1, h2]
    simp

/-- The spec's merge scenario: person A with 1 identity; person B with 2
identities, 1 celebration, and an EventGuest reference. -/
def exMergeStore : Store :=
  { people := [⟨"A", "u"⟩, ⟨"B", "u"⟩]
    identities := [⟨"a1", "A", some "+15550000001", none⟩,
                   ⟨"b1", "B", some "+15550000002", none⟩,
                   ⟨"b2", "B", none, some "b@example.com"⟩]
    celebrations := [⟨"c1", "B", CelebrationType.birthday, none, ⟨120, 0⟩,
                     some "FREQ=YEARLY", [7, 1, 0]⟩]
    events := [⟨"e1", "u", "Party", ⟨130, 0⟩⟩]
    eventGuests := [⟨"g1", "e1", some "B"⟩] }

/-- Witness for C1, instantiating the spec's example: after the merge A
holds all 3 identities and the celebration, B is gone, the EventGuest
points at A, and the survivor view is returned; an aborted transaction
returns the store untouched. -/
theorem mergePeople_spec_witness :
    (mergePeople true "u" "A" "B" exMergeStore).1.people = [⟨"A", "u"⟩] ∧
    (mergePeople true "u" "A" "B" exMergeStore).1.identities =
      [⟨"a1", "A", some "+15550000001", none⟩,
       ⟨"b1", "A", some "+15550000002", none⟩,
       ⟨"b2", "A", none, some "b@example.com"⟩] ∧
    (mergePeople true "u" "A" "B" exMergeStore).1.celebrations =
      [⟨"c1", "A", CelebrationType.birthday, none, ⟨120, 0⟩, some "FREQ=YEARLY", [7, 1, 0]⟩] ∧
    (mergePeople true "u" "A" "B" exMergeStore).1.eventGuests = [⟨"g1", "e1", some "A"⟩] ∧
    (mergePeople true "u" "A" "B" exMergeStore).2 =
      Except.ok ⟨⟨"A", "u"⟩,
        [⟨"a1", "A", some "+15550000001", none⟩,
         ⟨"b1", "A", some "+15550000002", none⟩,
         ⟨"b2", "A", none, some "b@example.com"⟩],
        [],
        [⟨"c1", "A", CelebrationType.birthday, none, ⟨120, 0⟩, some "FREQ=YEARLY", [7, 1, 0]⟩]⟩ ∧
    mergePeople false "u" "A" "B" exMergeStore =
      (exMergeStore, Except.error MergeError.transactionAborted) := by
  have h := mergePeople_spec "u" "A" "B" exMergeStore ⟨"A", "u"⟩ ⟨"B", "u"⟩
    (by decide) (by decide) (by decide) (by decide)
  refine ⟨?_, ?_, ?_, ?_, ?_, h.2⟩
  · rw [h.1]
    decide
  · rw [h.1]
    decide
  · rw [h.1]
    decide
  · rw [h.1]
    decide
  · rw [h.1]
    exact congrArg Except.ok (by decide)

/-! ## Claim C9: self-merge -/

/-- C9: calling `mergePeople` with `person1Id = person2Id = p` passes the
ownership pre-check (both lookups find the same row), then the committed
transaction deletes the person — cascading away its identities, addresses
and celebrations and nulling its EventGuest references — and only then
does the survivor lookup fail: the error is raised after the store has
been mutated, not before. -/
theorem mergePeople_self_spec (u p : String) (s : Store) (pA : Person)
    (h1 : s.people.find? (fun q => decide (q.id = p ∧ q.userId = u)) = some pA) :
    mergePeople true u p p s =
      ({ s with
         people := s.people.filter fun q => decide (¬ q.id = p)
         identities := s.identities.filter fun i => decide (¬ i.personId = p)
         addresses := s.addresses.filter fun a => decide (¬ a.personId = p)
         celebrations := s.celebrations.filter fun c => decide (¬ c.personId = p)
         eventGuests := s.eventGuests.map fun g =>
           if g.personId = some p then { g with personId := none } else g },
       Except.error MergeError.survivorNotFound) := by
  have hI : (s.identities.map fun i =>
      if i.personId = p then { i with personId := p } else i) = s.identities := by
    conv_rhs => rw [← List.map_id s.identities]
    apply List.map_congr_left
    intro i _
    by_cases h : i.personId = p
    · rw [if_pos h, ← h]
      rfl
    · rw [if_neg h]
      rfl
  have hAd : (s.addresses.map fun a =>
      if a.personId = p then { a with personId := p } else a) = s.addresses := by
    conv_rhs => rw [← List.map_id s.addresses]
    apply List.map_congr_left
    intro a _
    by_cases h : a.personId = p
    · rw [if_pos h, ← h]
      rfl
    · rw [if_neg h]
      rfl
  have hC : (s.celebrations.map fun c =>
      if c.personId = p then { c with personId := p } else c) = s.celebrations := by
    conv_rhs => rw [← List.map_id s.celebrations]
    apply List.map_congr_left
    intro c _
    by_cases h : c.personId = p
    · rw [if_pos h, ← h]
      rfl
    · rw [if_neg h]
      rfl
  have hG : (s.eventGuests.map fun g =>
      if g.personId = some p then { g with personId := some p } else g) = s.eventGuests := by
    conv_rhs => rw [← List.map_id s.eventGuests]
    apply List.map_congr_left
    intro g _
    by_cases h : g.personId = some p
    · rw [if_pos h, ← h]
      rfl
    · rw [if_neg h]
      rfl
  have hTx : mergeTransaction p p s =
      { s with
        people := s.people.filter fun q => decide (¬ q.id = p)
        identities := s.identities.filter fun i => decide (¬ i.personId = p)
        addresses := s.addresses.filter fun a => decide (¬ a.personId = p)
        celebrations := s.celebrations.filter fun c => decide (¬ c.personId = p)
        eventGuests := s.eventGuests.map fun g =>
          if g.personId = some p then { g with personId := none } else g } := by
    unfold mergeTransaction deletePersonCascade
    simp only [Store.mk.injEq, true_and, and_true, eq_self_iff_true]
    rw [hI, hAd, hC, hG]
    exact ⟨rfl, rfl, rfl, rfl⟩
  have hnone : (mergeTransaction p p s).people.find?
      (fun q => decide (q.id = p)) = none := by
    rw [hTx]
    refine List.find?_eq_none.mpr ?_
    intro q hq
    have hq2 := (List.mem_filter.mp hq).2
    simpa using of_decide_eq_true hq2
  have hviewnone : findUniquePersonView p (mergeTransaction p p s) = none := by
    unfold findUniquePersonView
    rw [hnone]
  simp only [mergePeople, h1]
  rw [if_neg (by simp)]
  rw [if_neg (by simp)]
  rw [hviewnone, hTx]

/-- A user with a single person A owning an identity, an address, a
celebration, and referenced by an EventGuest. -/
def exSelfStore : Store :=
  { people := [⟨"A", "u"⟩]
    identities := [⟨"a1", "A", some "+15550000001", none⟩]
    addresses := [⟨"ad1", "A"⟩]
    celebrations := [⟨"c1", "A", CelebrationType.birthday, none, ⟨120, 0⟩,
                     some "FREQ=YEARLY", [7, 1, 0]⟩]
    eventGuests := [⟨"g1", "e1", some "A"⟩] }

/-- Witness for C9: self-merging A deletes A with everything it owned,
nulls the guest reference, and only then reports the survivor missing. -/
theorem mergePeople_self_spec_witness :
    (mergePeople true "u" "A" "A" exSelfStore).1.people = [] ∧
    (mergePeople true "u" "A" "A" exSelfStore).1.identities = [] ∧
    (mergePeople true "u" "A" "A" exSelfStore).1.addresses = [] ∧
    (mergePeople true "u" "A" "A" exSelfStore).1.celebrations = [] ∧
    (mergePeople true "u" "A" "A" exSelfStore).1.eventGuests = [⟨"g1", "e1", none⟩] ∧
    (mergePeople true "u" "A" "A" exSelfStore).2 =
      Except.error MergeError.survivorNotFound := by
  have h := mergePeople_self_spec "u" "A" exSelfStore ⟨"A", "u"⟩ (by decide)
  refine ⟨?_, ?_, ?_, ?_, ?_, ?_⟩ <;> rw [h] <;> decide

/-! ## Processing due reminders (notifications and push services) -/

/-- The outcome of one Expo transport call for a single message: a
success ticket, an error ticket (possibly reporting the device as no
longer registered), or a thrown transport error. -/
inductive PushOutcome where
  | ok
  | errorTicket (deviceNotRegistered : Bool)
  | thrown
deriving DecidableEq

/-- Embedding of `sendPushNotification` (push service).  The Expo SDK's
token-format check and transport are external collaborators, modelled by
the oracles `validToken` and `expoSend`.  The source returns false when
the user is missing, push-disabled, tokenless or the token is invalid;
an error ticket is reported as false (clearing the stored token when the
device is no longer registered); a thrown transport error is caught and
reported as false.  The message text does not affect the store or the
result and is elided. -/
def sendPushNotification (validToken : String → Bool) (expoSend : String → PushOutcome)
    (userId : String) (s : Store) : Store × Bool :=
  match s.users.find? fun us => decide (us.id = userId) with
  | none => (s, false)
  | some us =>
    match us.pushToken with
    | none => (s, false)
    | some tok =>
      if us.pushEnabled = false then (s, false)
      else if validToken tok = false then (s, false)
      else
        match expoSend tok with
        | PushOutcome.ok => (s, true)
        | PushOutcome.errorTicket dnr =>
          if dnr = true then
            ({ s with users := s.users.map fun v =>
                if v.id = userId then { v with pushToken := none, pushPlatform := none }
                else v },
             false)
          else (s, false)
        | PushOutcome.thrown => (s, false)

/-- `sendBirthdayReminder` chooses notification text from `daysUntil` and
delegates to `sendPushNotification`; the text affects neither store nor
result. -/
def sendBirthdayReminder (validToken : String → Bool) (expoSend : String → PushOutcome)
    (userId : String) ( _daysUntil : Int) (s : Store) : Store × Bool :=
  sendPushNotification validToken expoSend userId s

/-- `sendEventReminder`, likewise. -/
def sendEventReminder (validToken : String → Bool) (expoSend : String → PushOutcome)
    (userId : String) ( _hoursUntil : Int) (s : Store) : Store × Bool :=
  sendPushNotification validToken expoSend userId s

/-- One row of the due-reminder query with its `include` joins (owning
user, celebration with person, event), snapshotted at load time. -/
structure DueReminder where
  rem : ScheduledReminder
  user : Option User
  celebration : Option Celebration
  celebrationPerson : Option Person
  event : Option Event
deriving DecidableEq

/-- The due-set: `sent = false and scheduledFor <= now`. -/
def dueOf (now : DateTime) (rs : List ScheduledReminder) : List ScheduledReminder :=
  rs.filter fun r => decide (r.sent = false) && DateTime.leD r.scheduledFor now

/-- The `findMany` of `processDueReminders`: the due-set, batched at 100
(`take: 100`), with its joins. -/
def loadDue (now : DateTime) (s : Store) : List DueReminder :=
  ((dueOf now s.reminders).take 100).map fun r =>
    { rem := r
      user := s.users.find? fun us => decide (us.id = r.userId)
      celebration :=
        match r.celebrationId with
        | some cid => s.celebrations.find? fun c => decide (c.id = cid)
        | none => none
      celebrationPerson :=
        match r.celebrationId with
        | some cid =>
          match s.celebrations.find? fun c => decide (c.id = cid) with
          | some c => s.people.find? fun p => decide (p.id = c.personId)
          | none => none
        | none => none
      event :=
        match r.eventId with
        | some eid => s.events.find? fun e => decide (e.id = eid)
        | none => none }

/-- `getDaysUntil`: both instants are truncated to midnight, so the
ceiling of the day difference is exactly the day-index difference. -/
def getDaysUntil (targetDate now : DateTime) : Int :=
  targetDate.day - now.day

/-- `getHoursUntil`: ceiling of the minute difference over 60. -/
def getHoursUntil (targetDate now : DateTime) : Int :=
  Int.fdiv (targetDate.day * 1440 + targetDate.minute - (now.day * 1440 + now.minute) + 59) 60

/-- The `scheduledReminder.update({ data: { sent: true, sentAt: now } })`
on the unique row with the given id. -/
def markSent (rs : List ScheduledReminder) (rid : Nat) (now : DateTime) :
    List ScheduledReminder :=
  match rs with
  | [] => []
  | r :: rest =>
    if r.id = rid then { r with sent := true, sentAt := some now } :: rest
    else r :: markSent rest rid now

/-- The body of the processing loop for one loaded reminder: attempt the
celebration push, then the event push (each gated on the snapshotted
user's `pushEnabled` and `pushToken`), then mark the reminder sent with
`sentAt = now` — unconditionally, whatever the delivery outcome was. -/
def processOne (validToken : String → Bool) (expoSend : String → PushOutcome)
    (now : DateTime) (dr : DueReminder) (st : Store) : Store :=
  let st1 :=
    match dr.celebration, dr.user with
    | some c, some us =>
      if us.pushEnabled && us.pushToken.isSome then
        (sendBirthdayReminder validToken expoSend dr.rem.userId
          (max 0 (getDaysUntil c.date now)) st).1
      else st
    | _, _ => st
  let st2 :=
    match dr.event, dr.user with
    | some e, some us =>
      if us.pushEnabled && us.pushToken.isSome then
        (sendEventReminder validToken expoSend dr.rem.userId
          (max 0 (getHoursUntil e.datetime now)) st1).1
      else st1
    | _, _ => st1
  { st2 with reminders := markSent st2.reminders dr.rem.id now }

/-- Embedding of `processDueReminders`: load the due batch, process each
row in order, return the processed count. -/
def processDueReminders (validToken : String → Bool) (expoSend : String → PushOutcome)
    (now : DateTime) (s : Store) : Store × Nat :=
  (loadDue now s).foldl
    (fun acc dr => (processOne validToken expoSend now dr acc.1, acc.2 + 1)) (s, 0)

lemma sendPushNotification_reminders (vt : String → Bool) (ex : String → PushOutcome)
    (uid : String) (st : Store) :
    (sendPushNotification vt ex uid st).1.reminders = st.reminders := by
  unfold sendPushNotification
  repeat' split <;> try rfl

lemma processOne_reminders (vt : String → Bool) (ex : String → PushOutcome)
    (now : DateTime) (dr : DueReminder) (st : Store) :
    (processOne vt ex now dr st).reminders = markSent st.reminders dr.rem.id now := by
  rcases dr with ⟨rem, user, cel, celp, ev⟩
  simp only [processOne, sendBirthdayReminder, sendEventReminder]
  rcases cel with _ | c <;> rcases user with _ | us <;> rcases ev with _ | e <;>
    dsimp only <;>
    (first
      | rfl
      | (split_ifs <;> simp [sendPushNotification_reminders]))

lemma processLoop_spec (vt : String → Bool) (ex : String → PushOutcome) (now : DateTime)
    (L : List DueReminder) :
    ∀ (st : Store) (n : Nat),
    (L.foldl (fun acc dr => (processOne vt ex now dr acc.1, acc.2 + 1)) (st, n)).1.reminders =
      L.foldl (fun rs dr => markSent rs dr.rem.id now) st.reminders ∧
    (L.foldl (fun acc dr => (processOne vt ex now dr acc.1, acc.2 + 1)) (st, n)).2 =
      n + L.length := by
  induction L with
  | nil =>
    intro st n
    exact ⟨rfl, by simp⟩
  | cons dr L ih =>
    intro st n
    simp only [List.foldl_cons]
    obtain ⟨ha, hb⟩ := ih (processOne vt ex now dr st) (n + 1)
    refine ⟨?_, ?_⟩
    · rw [ha, processOne_reminders]
    · rw [hb]
      simp only [List.length_cons]
      omega

lemma markSent_eq_map (rs : List ScheduledReminder) (rid : Nat) (now : DateTime)
    (hnd : (rs.map ScheduledReminder.id).Nodup) :
    markSent rs rid now =
      rs.map fun r =>
        if r.id = rid then { r with sent := true, sentAt := some now } else r := by
  induction rs with
  | nil => rfl
  | cons r rest ih =>
    rw [List.map_cons] at hnd
    obtain ⟨hhead, htail⟩ := List.nodup_cons.mp hnd
    simp only [markSent, List.map_cons]
    by_cases h : r.id = rid
    · rw [if_pos h, if_pos h]
      congr 1
      have hothers : ∀ x ∈ rest,
          (if x.id = rid then { x with sent := true, sentAt := some now } else x) = x := by
        intro x hx
        rw [if_neg]
        intro hc
        apply hhead
        rw [h, ← hc]
        exact List.mem_map_of_mem _ hx
      rw [List.map_congr_left hothers, List.map_id']
    · rw [if_neg h, if_neg h, ih htail]

lemma mark_preserves_ids (p : ScheduledReminder → Prop) [DecidablePred p] (now : DateTime)
    (rs : List ScheduledReminder) :
    ((rs.map fun r =>
      if p r then { r with sent := true, sentAt := some now } else r).map
        ScheduledReminder.id) = rs.map ScheduledReminder.id := by
  rw [List.map_map]
  apply List.map_congr_left
  intro r _
  simp only [Function.comp_apply]
  by_cases h : p r
  · rw [if_pos h]
  · rw [if_neg h]

lemma foldl_markSent_map (now : DateTime) (ids : List Nat) :
    ∀ rs : List ScheduledReminder, (rs.map ScheduledReminder.id).Nodup →
    ids.foldl (fun rs' i => markSent rs' i now) rs =
      rs.map fun r =>
        if r.id ∈ ids then { r with sent := true, sentAt := some now } else r := by
  induction ids with
  | nil =>
    intro rs _
    simp only [List.foldl_nil, List.not_mem_nil, if_false]
    exact (List.map_id' rs).symm
  | cons i ids ih =>
    intro rs hnd
    simp only [List.foldl_cons]
    rw [markSent_eq_map rs i now hnd]
    rw [ih _ (by
      exact (mark_preserves_ids (fun r => r.id = i) now rs).symm ▸ hnd)]
    rw [List.map_map]
    apply List.map_congr_left
    intro r _
    simp only [Function.comp_apply]
    by_cases h : r.id = i
    · rw [if_pos h]
      have hidm : ({ r with sent := true, sentAt := some now } : ScheduledReminder).id = r.id := rfl
      by_cases h2 : r.id ∈ ids
      · rw [if_pos (by rw [hidm]; exact h2), if_pos (by simp [h])]
      · rw [if_neg (by rw [hidm]; exact h2), if_pos (by simp [h])]
    · rw [if_neg h]
      by_cases h2 : r.id ∈ ids
      · rw [if_pos h2, if_pos (by simp [h2])]
      · rw [if_neg h2, if_neg (by simp [h, h2])]

lemma foldl_markSent_comp (now : DateTime) (L : List DueReminder) :
    ∀ rs : List ScheduledReminder,
    L.foldl (fun rs' dr => markSent rs' dr.rem.id now) rs =
      (L.map fun dr => dr.rem.id).foldl (fun rs' i => markSent rs' i now) rs := by
  induction L with
  | nil => intro rs; rfl
  | cons dr L ih =>
    intro rs
    simp only [List.foldl_cons, List.map_cons]
    exact ih _

lemma loadDue_ids (now : DateTime) (s : Store) :
    (loadDue now s).map (fun dr => dr.rem.id) =
      ((dueOf now s.reminders).take 100).map ScheduledReminder.id := by
  unfold loadDue
  rw [List.map_map]
  rfl

/-- After one call, the reminders table is exactly the old table with
every loaded due row marked `sent = true, sentAt = now`. -/
lemma processDueReminders_reminders (vt : String → Bool) (ex : String → PushOutcome)
    (now : DateTime) (s : Store)
    (hnd : (s.reminders.map ScheduledReminder.id).Nodup) :
    (processDueReminders vt ex now s).1.reminders =
      s.reminders.map fun r =>
        if r.id ∈ ((dueOf now s.reminders).take 100).map ScheduledReminder.id
        then { r with sent := true, sentAt := some now } else r := by
  obtain ⟨h1, _⟩ := processLoop_spec vt ex now (loadDue now s) s 0
  rw [processDueReminders] at *
  rw [h1, foldl_markSent_comp, loadDue_ids, foldl_markSent_map now _ s.reminders hnd]

lemma processDueReminders_count (vt : String → Bool) (ex : String → PushOutcome)
    (now : DateTime) (s : Store) :
    (processDueReminders vt ex now s).2 = ((dueOf now s.reminders).take 100).length := by
  obtain ⟨_, h2⟩ := processLoop_spec vt ex now (loadDue now s) s 0
  rw [processDueReminders] at *
  rw [h2]
  simp [loadDue]

lemma processDueReminders_noop (vt : String → Bool) (ex : String → PushOutcome)
    (now : DateTime) (s : Store) (h : dueOf now s.reminders = []) :
    processDueReminders vt ex now s = (s, 0) := by
  simp only [processDueReminders, loadDue, h]
  rfl

/-! ## Claim C3: due-reminder idempotence -/

/-- C3: one call marks every due reminder it loads as sent, so its id is
never again in the due-set — at this or any later time — and a call that
finds no due reminders is a no-op returning 0; in particular, when the
due-set fits the 100-row batch, the second consecutive call changes
nothing and returns 0. -/
theorem processDueReminders_idempotent (validToken : String → Bool)
    (expoSend : String → PushOutcome) (now : DateTime) (s : Store)
    (hnd : (s.reminders.map ScheduledReminder.id).Nodup) :
    (∀ rm ∈ (dueOf now s.reminders).take 100, ∀ now' : DateTime,
      rm.id ∉ (dueOf now'
        (processDueReminders validToken expoSend now s).1.reminders).map
          ScheduledReminder.id) ∧
    (∀ (now' : DateTime) (s' : Store), dueOf now' s'.reminders = [] →
      processDueReminders validToken expoSend now' s' = (s', 0)) ∧
    ((dueOf now s.reminders).length ≤ 100 →
      processDueReminders validToken expoSend now
          (processDueReminders validToken expoSend now s).1 =
        ((processDueReminders validToken expoSend now s).1, 0)) := by
  have hmap := processDueReminders_reminders validToken expoSend now s hnd
  refine ⟨?_, ?_, ?_⟩
  · intro rm hrm now' hmem
    rw [hmap] at hmem
    obtain ⟨r', hr'due, hid⟩ := List.mem_map.mp hmem
    obtain ⟨hr'mem, hpred⟩ := List.mem_filter.mp hr'due
    obtain ⟨r, hrmem, rfl⟩ := List.mem_map.mp hr'mem
    by_cases hin : r.id ∈ ((dueOf now s.reminders).take 100).map ScheduledReminder.id
    · rw [if_pos hin] at hpred hid
      simp at hpred
    · rw [if_neg hin] at hpred hid
      apply hin
      rw [hid]
      exact List.mem_map_of_mem _ hrm
  · intro now' s' h
    exact processDueReminders_noop validToken expoSend now' s' h
  · intro hlen
    have htake : (dueOf now s.reminders).take 100 = dueOf now s.reminders :=
      List.take_of_length_le hlen
    have hempty : dueOf now
        (processDueReminders validToken expoSend now s).1.reminders = [] := by
      rw [hmap]
      refine List.filter_eq_nil_iff.mpr ?_
      intro r' hr'
      obtain ⟨r, hr, rfl⟩ := List.mem_map.mp hr'
      by_cases hin : r.id ∈ ((dueOf now s.reminders).take 100).map ScheduledReminder.id
      · rw [if_pos hin]
        simp
      · rw [if_neg hin]
        intro hpred
        apply hin
        rw [htake]
        exact List.mem_map_of_mem _ (List.mem_filter.mpr ⟨hr, hpred⟩)
    exact processDueReminders_noop validToken expoSend now _ hempty

/-- A store with a single overdue, unsent reminder. -/
def wRemStore : Store :=
  { reminders := [⟨0, "u", some "c", none, ⟨5, 0⟩, false, none⟩] }

/-- Witness for C3: the overdue reminder of `wRemStore` is absent from
the due-set after one call, and the second consecutive call is a no-op
returning 0. -/
theorem processDueReminders_idempotent_witness :
    ((0 : Nat) ∉ (dueOf ⟨10, 0⟩
      (processDueReminders (fun _ => true) (fun _ => PushOutcome.thrown)
        ⟨10, 0⟩ wRemStore).1.reminders).map ScheduledReminder.id) ∧
    processDueReminders (fun _ => true) (fun _ => PushOutcome.thrown) ⟨10, 0⟩
        (processDueReminders (fun _ => true) (fun _ => PushOutcome.thrown)
          ⟨10, 0⟩ wRemStore).1 =
      ((processDueReminders (fun _ => true) (fun _ => PushOutcome.thrown)
          ⟨10, 0⟩ wRemStore).1, 0) := by
  have h := processDueReminders_idempotent (fun _ => true) (fun _ => PushOutcome.thrown)
    ⟨10, 0⟩ wRemStore (by decide)
  exact ⟨h.1 ⟨0, "u", some "c", none, ⟨5, 0⟩, false, none⟩ (by decide) ⟨10, 0⟩,
    h.2.2 (by decide)⟩

/-! ## Claim C4: marking regardless of delivery -/

/-- C4: every loaded due reminder ends up `sent = true` with
`sentAt = now` and the whole batch is counted, whatever the token
validator and the Expo transport do — the result is literally independent
of both oracles; and a throwing transport is caught inside
`sendPushNotification`, which reports failure by returning false. -/
theorem processDueReminders_marks_regardless (validToken : String → Bool)
    (expoSend : String → PushOutcome) (now : DateTime) (s : Store)
    (hnd : (s.reminders.map ScheduledReminder.id).Nodup) :
    (processDueReminders validToken expoSend now s).1.reminders =
      (s.reminders.map fun r =>
        if r.id ∈ ((dueOf now s.reminders).take 100).map ScheduledReminder.id
        then { r with sent := true, sentAt := some now } else r) ∧
    (processDueReminders validToken expoSend now s).2 =
      ((dueOf now s.reminders).take 100).length ∧
    (∀ (validToken2 : String → Bool) (expoSend2 : String → PushOutcome),
      (processDueReminders validToken2 expoSend2 now s).1.reminders =
        (processDueReminders validToken expoSend now s).1.reminders ∧
      (processDueReminders validToken2 expoSend2 now s).2 =
        (processDueReminders validToken expoSend now s).2) ∧
    (∀ uid : String, (∀ tok, expoSend tok = PushOutcome.thrown) →
      (sendPushNotification validToken expoSend uid s).2 = false) := by
  refine ⟨processDueReminders_reminders validToken expoSend now s hnd,
    processDueReminders_count validToken expoSend now s, ?_, ?_⟩
  · intro vt2 ex2
    constructor
    · rw [processDueReminders_reminders validToken expoSend now s hnd,
        processDueReminders_reminders vt2 ex2 now s hnd]
    · rw [processDueReminders_count validToken expoSend now s,
        processDueReminders_count vt2 ex2 now s]
  · intro uid hthrow
    unfold sendPushNotification
    cases hfind : s.users.find? fun us => decide (us.id = uid) with
    | none => rfl
    | some us =>
      dsimp only
      cases htok : us.pushToken with
      | none => rfl
      | some tok =>
        dsimp only
        by_cases hen : us.pushEnabled = false
        · rw [if_pos hen]
        · rw [if_neg hen]
          by_cases hval : validToken tok = false
          · rw [if_pos hval]
          · rw [if_neg hval, hthrow tok]

/-- A store with an overdue celebration reminder whose user has push
enabled and a registered token. -/
def wPushStore : Store :=
  { users := [⟨"u", "u@example.com", true, some "tok", none⟩]
    people := [⟨"P", "u"⟩]
    celebrations := [⟨"c", "P", CelebrationType.birthday, none, ⟨20, 0⟩,
                     some "FREQ=YEARLY", [0]⟩]
    reminders := [⟨0, "u", some "c", none, ⟨5, 0⟩, false, none⟩] }

/-- Witness for C4: with a transport that always throws, the reminder is
still marked sent with a sentAt timestamp, the batch count is 1, and the
push layer reports false rather than raising. -/
theorem processDueReminders_marks_regardless_witness :
    (processDueReminders (fun _ => true) (fun _ => PushOutcome.thrown)
        ⟨10, 0⟩ wPushStore).1.reminders =
      [⟨0, "u", some "c", none, ⟨5, 0⟩, true, some ⟨10, 0⟩⟩] ∧
    (processDueReminders (fun _ => true) (fun _ => PushOutcome.thrown)
        ⟨10, 0⟩ wPushStore).2 = 1 ∧
    (sendPushNotification (fun _ => true) (fun _ => PushOutcome.thrown)
        "u" wPushStore).2 = false := by
  have h := processDueReminders_marks_regardless (fun _ => true)
    (fun _ => PushOutcome.thrown) ⟨10, 0⟩ wPushStore (by decide)
  refine ⟨?_, ?_, h.2.2.2 "u" (fun tok => rfl)⟩
  · rw [h.1]
    decide
  · rw [h.2.1]
    decide

/-! ## Celebration routes (create and update) -/

/-- The POST body after zod parsing (`reminderOffsets` defaulted). -/
structure CreateCelebrationBody where
  personId : String
  ctype : CelebrationType
  title : Option String := none
  date : DateTime
  recurringRule : Option String := none
  reminderOffsets : List Int := [7, 1, 0]
deriving DecidableEq

/-- The PUT body after zod parsing: every field optional, `none` meaning
"leave unchanged" (the string schema cannot carry an explicit null). -/
structure UpdateCelebrationBody where
  ctype : Option CelebrationType := none
  title : Option String := none
  date : Option DateTime := none
  recurringRule : Option String := none
  reminderOffsets : Option (List Int) := none
deriving DecidableEq

inductive RouteError where
  | badRequest (msg : String)
  | notFound (msg : String)
deriving DecidableEq

/-- JS falsiness of an optional string: undefined or the empty string. -/
def strOptFalsy : Option String → Bool
  | none => true
  | some t => t == ""

/-- Embedding of the celebrations route's `POST /` handler: title check
for life events, ownership check of the person, defaulting of the
recurrence rule for birthdays and anniversaries (`recurringRule ||
'FREQ=YEARLY'`), row creation, then reminder scheduling.  `newId` is the
id the store assigns to the created row. -/
def createCelebration (u : String) (body : CreateCelebrationBody) (newId : String)
    (s : Store) : Store × Except RouteError Celebration :=
  if body.ctype = CelebrationType.lifeEvent ∧ strOptFalsy body.title = true then
    (s, Except.error (RouteError.badRequest "Life events require a title"))
  else
    match s.people.find? fun p => decide (p.id = body.personId ∧ p.userId = u) with
    | none => (s, Except.error (RouteError.notFound "Person not found"))
    | some _ =>
      let recurringRule :=
        if body.ctype = CelebrationType.birthday ∨ body.ctype = CelebrationType.anniversary then
          if strOptFalsy body.recurringRule = true then some "FREQ=YEARLY"
          else body.recurringRule
        else body.recurringRule
      let cel : Celebration :=
        ⟨newId, body.personId, body.ctype, body.title, body.date, recurringRule,
         body.reminderOffsets⟩
      let s1 := { s with celebrations := s.celebrations ++ [cel] }
      (scheduleCelebrationReminders u newId cel.date cel.reminderOffsets s1, Except.ok cel)

/-- Embedding of the celebrations route's `PUT /:id` handler: ownership
check through the person relation, partial update of exactly the supplied
fields (no recurrence-marker fixup of any kind), then reminder
regeneration when the date or the offsets changed. -/
def updateCelebration (u celebId : String) (body : UpdateCelebrationBody)
    (s : Store) : Store × Except RouteError Celebration :=
  match s.celebrations.find? fun c =>
      decide (c.id = celebId) &&
      s.people.any fun p => decide (p.id = c.personId ∧ p.userId = u) with
  | none => (s, Except.error (RouteError.notFound "Celebration not found"))
  | some c =>
    let updated : Celebration :=
      { c with
        ctype := body.ctype.getD c.ctype
        title := if body.title.isSome then body.title else c.title
        date := body.date.getD c.date
        recurringRule := if body.recurringRule.isSome then body.recurringRule
                         else c.recurringRule
        reminderOffsets := body.reminderOffsets.getD c.reminderOffsets }
    let s1 := { s with celebrations := s.celebrations.map fun c' =>
      if c'.id = celebId then updated else c' }
    let s2 :=
      if body.date.isSome || body.reminderOffsets.isSome then
        scheduleCelebrationReminders u updated.id updated.date updated.reminderOffsets s1
      else s1
    (s2, Except.ok updated)

/-! ## Claim C6: celebration recurrence invariant -/

/-- A user with a person P and an existing LIFE_EVENT celebration L
without a recurrence rule. -/
def cexStoreC6 : Store :=
  { people := [⟨"P", "u"⟩]
    celebrations := [⟨"L", "P", CelebrationType.lifeEvent, some "Wedding", ⟨300, 0⟩,
                     none, [7, 1, 0]⟩] }

/-- C6 counterexample: the routes do not preserve the claimed invariant.
Creating a LIFE_EVENT with a supplied `recurringRule` stores the marker
(the route only checks the title), and updating the existing LIFE_EVENT's
type to BIRTHDAY leaves it without any recurrence marker (the update
applies the body verbatim, with no marker fixup). -/
theorem celebration_invariant_counterexample :
    (createCelebration "u"
        ⟨"P", CelebrationType.lifeEvent, some "Graduation", ⟨200, 0⟩,
         some "FREQ=YEARLY", [7, 1, 0]⟩ "N" cexStoreC6).2 =
      Except.ok ⟨"N", "P", CelebrationType.lifeEvent, some "Graduation", ⟨200, 0⟩,
        some "FREQ=YEARLY", [7, 1, 0]⟩ ∧
    (updateCelebration "u" "L" { ctype := some CelebrationType.birthday } cexStoreC6).2 =
      Except.ok ⟨"L", "P", CelebrationType.birthday, some "Wedding", ⟨300, 0⟩,
        none, [7, 1, 0]⟩ := by
  constructor <;> rfl

/-- C6 amended: the create route does guarantee half the invariant —
every celebration it creates with type BIRTHDAY or ANNIVERSARY carries a
recurrence marker, defaulting to FREQ=YEARLY when none (or an empty
string) is supplied. -/
theorem createCelebration_recurring_spec (u : String) (body : CreateCelebrationBody)
    (newId : String) (s : Store) (cel : Celebration)
    (hty : body.ctype = CelebrationType.birthday ∨ body.ctype = CelebrationType.anniversary)
    (hok : (createCelebration u body newId s).2 = Except.ok cel) :
    ¬ cel.recurringRule = none ∧ cel.ctype = body.ctype := by
  have hne : ¬ (body.ctype = CelebrationType.lifeEvent ∧ strOptFalsy body.title = true) := by
    rintro ⟨hc, -⟩
    rcases hty with h | h <;> rw [h] at hc <;> exact CelebrationType.noConfusion hc
  unfold createCelebration at hok
  rw [if_neg hne] at hok
  cases hfind : s.people.find? fun p => decide (p.id = body.personId ∧ p.userId = u) with
  | none =>
    rw [hfind] at hok
    simp at hok
  | some p =>
    rw [hfind] at hok
    dsimp only at hok
    have hcel := (Except.ok.inj hok).symm
    subst hcel
    refine ⟨?_, rfl⟩
    have hcond : body.ctype = CelebrationType.birthday ∨
        body.ctype = CelebrationType.anniversary := hty
    rw [if_pos hcond]
    cases hrr : body.recurringRule with
    | none => simp [strOptFalsy]
    | some r =>
      by_cases hre : r = ""
      · simp [strOptFalsy, hre]
      · simp [strOptFalsy, hre]

/-- Witness for the amended C6: creating a BIRTHDAY without a rule stores
FREQ=YEARLY. -/
theorem createCelebration_recurring_spec_witness :
    ¬ (⟨"N2", "P", CelebrationType.birthday, none, ⟨250, 0⟩, some "FREQ=YEARLY",
        [7, 1, 0]⟩ : Celebration).recurringRule = none ∧
    (⟨"N2", "P", CelebrationType.birthday, none, ⟨250, 0⟩, some "FREQ=YEARLY",
        [7, 1, 0]⟩ : Celebration).ctype = CelebrationType.birthday :=
  createCelebration_recurring_spec "u"
    ⟨"P", CelebrationType.birthday, none, ⟨250, 0⟩, none, [7, 1, 0]⟩ "N2" cexStoreC6
    ⟨"N2", "P", CelebrationType.birthday, none, ⟨250, 0⟩, some "FREQ=YEARLY", [7, 1, 0]⟩
    (Or.inl rfl) rfl

end Moments
